import Mathlib

/-
Verification development for the Open Australian Legal Corpus creator
(`oalc_creator`).  The text/citation normaliser (`helpers.clean_text`,
`data.format_citation`, `data.make_doc`, `data.make_section`), the
`Request`/`Entry`/`Response` data model and the order-preserving fan-out
and batching helpers are embedded as executable Lean functions.

Python strings are modelled as lists of characters (`PyStr`).  The
regular-expression substitutions used by the source are embedded with the
scanning semantics of Python's `re.sub` (leftmost match, greedy with
backtracking, zero-width matches substituted and then one character
copied).  Character-class predicates model the ASCII/Latin-1 fragment of
Python's Unicode-aware classes, which covers every character the
normaliser itself introduces or inspects.
-/

deriving instance DecidableEq for Except

namespace OALC

/-- A Python string, modelled as its list of characters. -/
abbrev PyStr := List Char

/-- Python's regex class `\s` (and `str.isspace`) on the ASCII/Latin-1
range: space, tab, linefeed, vertical tab, formfeed, carriage return,
the separator control characters x1c-x1f, next-line x85 and
non-breaking space xa0. -/
def isWs (c : Char) : Bool :=
  c = ' ' || c = '\t' || c = '\n' || c = '\x0B' || c = '\x0C' || c = '\r' ||
  c = '\x1C' || c = '\x1D' || c = '\x1E' || c = '\x1F' || c = '\x85' || c = '\xA0'

/-- `helpers.clean_text`, step 1: `text.replace('\xa0', ' ')`. -/
def replaceNbsp (s : PyStr) : PyStr := s.map (fun c => if c = '\xA0' then ' ' else c)

/-- `helpers.clean_text`, step 2: `text.replace(r'\r\n', '\n')`.  The
source uses a raw string, so the four-character literal text
backslash-r-backslash-n is replaced, not a carriage-return/linefeed
pair. -/
def replaceLitCrLf : PyStr → PyStr
  | '\\' :: 'r' :: '\\' :: 'n' :: rest => '\n' :: replaceLitCrLf rest
  | c :: rest => c :: replaceLitCrLf rest
  | [] => []

/-- Index of the last linefeed in a string, if any. -/
def lastNlIdx : PyStr → Option Nat
  | [] => none
  | c :: rest =>
    match lastNlIdx rest with
    | some i => some (i + 1)
    | none => if c = '\n' then some 0 else none

/-- Scanner for `re.sub(r'(?<=\n)\s*(?=\n)', '\n', text)` (step 3 of
`clean_text`).  `prev` is the character before the current scan position
in the original string (the lookbehind context).  At a position whose
previous character is a linefeed, the greedy `\s*` with the `(?=\n)`
lookahead matches up to the last linefeed inside the maximal whitespace
run; the match (possibly empty) is replaced by a linefeed, and after an
empty match one character is copied before scanning resumes.  Every step
consumes at least one character of `s`, so `fuel = s.length` (supplied by
`subBlankLines`) always suffices; the fuel-exhausted branch is never
reached. -/
def go3 (fuel : Nat) (prev : Option Char) (s : PyStr) : PyStr :=
  match fuel, s with
  | _, [] => []
  | 0, rest => rest
  | fuel + 1, c :: cs =>
    if prev = some '\n' then
      match lastNlIdx ((c :: cs).takeWhile isWs) with
      | none => c :: go3 fuel (some c) cs
      | some 0 => '\n' :: c :: go3 fuel (some c) cs
      | some (m + 1) =>
        '\n' :: go3 fuel (some (((c :: cs).takeWhile isWs).getD m ' ')) ((c :: cs).drop (m + 1))
    else c :: go3 fuel (some c) cs

/-- `helpers.clean_text`, step 3. -/
def subBlankLines (s : PyStr) : PyStr := go3 s.length none s

/-- `helpers.clean_text`, step 4: `re.sub(r'^\s*\n', '', text)` — the
match runs from the start of the string to the last linefeed inside the
leading whitespace run. -/
def stripLeadingBlank (s : PyStr) : PyStr :=
  match lastNlIdx (s.takeWhile isWs) with
  | none => s
  | some i => s.drop (i + 1)

/-- `helpers.clean_text`, step 5: `re.sub(r'\n\s*$', '', text)` — the
leftmost linefeed that is followed only by whitespace is removed together
with everything after it. -/
def stripTrailingBlank : PyStr → PyStr
  | [] => []
  | c :: cs => if c = '\n' && cs.all isWs then [] else c :: stripTrailingBlank cs

/-- The character class `[ \t]`. -/
def isSpaceTab (c : Char) : Bool := c = ' ' || c = '\t'

/-- Right-to-left scanner for `re.sub(r'[ \t]+\n', '\n', text)` (step 6
of `clean_text`): every maximal run of spaces/tabs immediately preceding
a linefeed is deleted.  Operates on the reversed string; `afterNl` is
true while inside the space/tab run that directly follows a linefeed. -/
def goEol (afterNl : Bool) : PyStr → PyStr
  | [] => []
  | c :: rest =>
    if c = '\n' then '\n' :: goEol true rest
    else if afterNl && isSpaceTab c then goEol true rest
    else c :: goEol false rest

/-- `helpers.clean_text`, step 6. -/
def stripEolSpaces (s : PyStr) : PyStr := (goEol false s.reverse).reverse

/-- `helpers.clean_text`: the six replacement steps applied in source
order. -/
def clean_text (text : PyStr) : PyStr :=
  stripEolSpaces (stripTrailingBlank (stripLeadingBlank (subBlankLines (replaceLitCrLf (replaceNbsp text)))))

/-- `re.sub(r' No\s+\d+$', '', title)` (data.py:169): a trailing
space-`No`-whitespace-digits suffix is removed; `\d` is matched on its
ASCII fragment.  Implemented by reading the reversed string: digits,
then whitespace, then the reversed literal `No` preceded by a space. -/
def stripNoSuffix (s : PyStr) : PyStr :=
  let r := s.reverse
  let ds := r.takeWhile (fun c => c.isDigit)
  let r2 := r.dropWhile (fun c => c.isDigit)
  let ws := r2.takeWhile isWs
  let r3 := r2.dropWhile isWs
  if ds.isEmpty || ws.isEmpty then s
  else
    match r3 with
    | 'o' :: 'N' :: ' ' :: rest => rest.reverse
    | _ => s

/-- `title.split(sep)[0]` for a non-empty separator (data.py:178): the
text before the first occurrence of `sep`, or the whole string when
`sep` does not occur. -/
def splitFirstAt (sep : PyStr) : PyStr → PyStr
  | [] => []
  | c :: cs => if sep.isPrefixOf (c :: cs) then [] else c :: splitFirstAt sep cs

/-- `re.sub(r'\s+', ' ', title)` (data.py:184): every maximal whitespace
run becomes a single space.  `prevWs` is true while inside a run that
has already emitted its space. -/
def collapseWsAux (prevWs : Bool) : PyStr → PyStr
  | [] => []
  | c :: cs =>
    if isWs c then
      if prevWs then collapseWsAux true cs else ' ' :: collapseWsAux true cs
    else c :: collapseWsAux false cs

/-- `re.sub(r'\s+', ' ', title)`. -/
def collapseWs (s : PyStr) : PyStr := collapseWsAux false s

/-- `title.split()`: the maximal non-whitespace runs of the string, in
order.  `cur` holds the reversed characters of the word being read. -/
def pyWordsAux (cur : PyStr) : PyStr → List PyStr
  | [] => if cur.isEmpty then [] else [cur.reverse]
  | c :: cs =>
    if isWs c then
      if cur.isEmpty then pyWordsAux [] cs else cur.reverse :: pyWordsAux [] cs
    else pyWordsAux (c :: cur) cs

/-- `title.split()`. -/
def pyWords (s : PyStr) : List PyStr := pyWordsAux [] s

/-- `' '.join(words)`: the words joined by single spaces. -/
def joinSp : List PyStr → PyStr
  | [] => []
  | [w] => w
  | w :: ws => w ++ ' ' :: joinSp ws

/-- `' '.join(title.split())` (data.py:187). -/
def pySplitJoin (s : PyStr) : PyStr := joinSp (pyWords s)

/-- The `JURISDICTIONS` table of `data.format_citation` (data.py:150). -/
def JURISDICTIONS : List (PyStr × PyStr) :=
  [(("commonwealth").data, ("Cth").data),
   (("new_south_wales").data, ("NSW").data),
   (("victoria").data, ("Vic").data),
   (("queensland").data, ("Qld").data),
   (("south_australia").data, ("SA").data),
   (("western_australia").data, ("WA").data),
   (("tasmania").data, ("Tas").data),
   (("northern_territory").data, ("NT").data),
   (("australian_capital_territory").data, ("ACT").data),
   (("norfolk_island").data, ("NI").data)]

/-- `JURISDICTIONS[jurisdiction]`, with the `jurisdiction not in
JURISDICTIONS` test folded in as `none`. -/
def jlookup (jurisdiction : PyStr) : Option PyStr :=
  (JURISDICTIONS.find? (fun p => p.1 == jurisdiction)).map (fun p => p.2)

/-- `data.format_citation`.  `unescape` abstracts `html.unescape`
(standard library, applied before any other processing); the
`ValueError` raised for an unmapped jurisdiction is modelled by
`Except.error` carrying the message text. -/
def format_citation (unescape : PyStr → PyStr) (title ty jurisdiction : PyStr) :
    Except PyStr PyStr :=
  let t1 := unescape title
  if ty ≠ ("decision").data then
    let t2 := stripNoSuffix t1
    match jlookup jurisdiction with
    | none =>
      .error ((("Unable to find an abbreviated form of the following jurisdiction: ").data
        ++ jurisdiction) ++ (".").data)
    | some abbr =>
      let t3 := splitFirstAt (('(' :: abbr) ++ [')']) t2
      let t4 := (t3 ++ (' ' :: '(' :: abbr)) ++ [')']
      .ok (pySplitJoin (collapseWs t4))
  else .ok (pySplitJoin (collapseWs t1))

/-- Python's regex class `\w` on its ASCII fragment: letters, digits and
underscore. -/
def isWordChar (c : Char) : Bool := c.isAlphanum || c = '_'

/-- `re.sub(r'\W', '', text)` (data.py:211, 249). -/
def stripNonWord (s : PyStr) : PyStr := s.filter isWordChar

/-- `data.Document` (msgspec struct).  The `other` metadata mapping is
not touched by any claim and is omitted; `date` is typed `str` at the
only constructor call (`make_doc`) and is modelled as `PyStr`. -/
structure Document where
  version_id : PyStr
  type : PyStr
  jurisdiction : PyStr
  source : PyStr
  mime : PyStr
  date : PyStr
  citation : PyStr
  url : PyStr
  when_scraped : PyStr
  text : PyStr
deriving DecidableEq

/-- `data.Section` (msgspec struct).  The source declares exactly these
fields; in particular there is no `jurisdiction` field. -/
structure Section where
  id : PyStr
  document_id : PyStr
  type : PyStr
  number : PyStr
  title : PyStr
  text : PyStr
  citation : PyStr
  url : PyStr
  when_scraped : PyStr
deriving DecidableEq

/-- `data.make_doc`.  `unescape` abstracts `html.unescape` and `now` the
`datetime.now().astimezone().isoformat()` timestamp; the warning printed
in the short-text branch is console output with no modelled effect. -/
def make_doc (unescape : PyStr → PyStr) (now : PyStr)
    (version_id ty jurisdiction source mime date citation url text : PyStr) :
    Except PyStr (Option Document) :=
  match format_citation unescape citation ty jurisdiction with
  | .error e => .error e
  | .ok cit =>
    let t := clean_text text
    if (stripNonWord t).length < 9 then .ok none
    else .ok (some { version_id := version_id, type := ty, jurisdiction := jurisdiction,
                     source := source, mime := mime, date := date, citation := cit,
                     url := url, when_scraped := now, text := t })

/-- `data.make_section`.  The short-text branch returns `None` exactly as
in `make_doc`.  The construction branch, however, calls
`Section(..., jurisdiction = jurisdiction, ...)` (data.py:257) although
`Section` declares no `jurisdiction` field, so the msgspec-generated
constructor raises `TypeError: Unexpected keyword argument`; that raise
is modelled as `Except.error`. -/
def make_section (unescape : PyStr → PyStr) (now : PyStr)
    (version_id jurisdiction ty number title citation url text : PyStr) :
    Except PyStr (Option Section) :=
  match format_citation unescape citation ty jurisdiction with
  | .error e => .error e
  | .ok _cit =>
    let t := clean_text text
    if (stripNonWord t).length < 9 then .ok none
    else .error (("Unexpected keyword argument jurisdiction").data)

/-- Lookup in a Python mapping modelled as an association list in
insertion order: the value of the first entry carrying the key. -/
def plookup (k : PyStr) : List (PyStr × PyStr) → Option PyStr
  | [] => none
  | p :: t => if p.1 = k then some p.2 else plookup k t

/-- A Python `dict` never holds two entries with the same key. -/
abbrev NodupKeysP (d : List (PyStr × PyStr)) : Prop := (d.map Prod.fst).Nodup

/-- Modelled from the library semantics `data.Request` relies on
(data.py:22-23): equality of two `frozendict` mappings is equality of
the key-to-value functions, independent of insertion order. -/
def dictEqB (d1 d2 : List (PyStr × PyStr)) : Bool :=
  d1.all (fun p => plookup p.1 d2 == some p.2) &&
  d2.all (fun p => plookup p.1 d1 == some p.2)

/-- An arbitrary string hash (any function of the value works for the
order-independence statements below). -/
def strHash (s : PyStr) : Nat := s.foldl (fun a c => a * 257 + c.toNat + 1) 7

/-- Hash of one key/value entry. -/
def entryHash (p : PyStr × PyStr) : Nat := strHash p.1 * 1000003 + strHash p.2

/-- Modelled from the library semantics `data.Request` relies on: the
hash of a `frozendict` is computed from the unordered collection of its
entries (here: the sum of the entry hashes), so it cannot depend on
insertion order. -/
def dictHash (d : List (PyStr × PyStr)) : Nat := (d.map entryHash).sum

/-- `data.Request` (msgspec struct, `frozen = True`): the `__post_init__`
conversion of `data`/`headers` to `frozendict` is modelled by treating
those fields as order-insensitive mappings in `requestEqB`/`requestHash`
below. -/
structure Request where
  path : PyStr
  method : PyStr := ("get").data
  data : List (PyStr × PyStr) := []
  headers : List (PyStr × PyStr) := []
  encoding : PyStr := ("utf-8").data
  selenium : Bool := false

/-- Modelled from the library semantics of msgspec frozen structs:
`__eq__` compares all fields, with the two mapping fields compared as
mappings. -/
def requestEqB (r1 r2 : Request) : Bool :=
  r1.path == r2.path && r1.method == r2.method && dictEqB r1.data r2.data &&
  dictEqB r1.headers r2.headers && r1.encoding == r2.encoding && r1.selenium == r2.selenium

/-- Modelled from the library semantics of msgspec frozen structs:
`__hash__` combines the hashes of all fields, the mapping fields
contributing their order-independent `frozendict` hash. -/
def requestHash (r : Request) : Nat :=
  strHash r.path + 31 * strHash r.method + 961 * dictHash r.data +
  29791 * dictHash r.headers + 923521 * strHash r.encoding +
  (if r.selenium then 28629151 else 0)

/-- Inserting into a Python `set`: a member equal to the candidate keeps
the set unchanged. -/
def pySetInsert (r : Request) (s : List Request) : List Request :=
  if s.any (fun x => requestEqB x r) then s else s ++ [r]

/-- `data.Entry.format_id` (data.py:102-109). -/
def format_id (version_id source : PyStr) : PyStr :=
  if version_id.take (source.length + 1) = source ++ [':'] then version_id
  else source ++ (':' :: version_id)

/-- `data.Entry` (msgspec struct); the optional metadata fields are kept,
`other` omitted (untouched by any claim). -/
structure Entry where
  request : Request
  version_id : PyStr
  source : PyStr
  type : Option PyStr := none
  jurisdiction : Option PyStr := none
  date : Option PyStr := none
  title : Option PyStr := none

/-- Construction of an `Entry`: `__post_init__` rewrites `version_id`
through `format_id` (data.py:97-99). -/
def Entry.make (request : Request) (version_id source : PyStr)
    (type jurisdiction date title : Option PyStr := none) : Entry :=
  { request := request, version_id := format_id version_id source, source := source,
    type := type, jurisdiction := jurisdiction, date := date, title := title }

/-- `data.Response`: a `bytes` subclass (the immutable `payload`) with
`encoding`, content `type` and `status`, plus the caches that
`functools.cached_property` stores for the two decorated views: `text`
(data.py:68) and `json` (data.py:80).  The `html` and `stream` views are
plain `property`s and have no cache slot.  `γ` is the type of parsed
JSON values. -/
structure RespState (γ : Type) where
  payload : List Nat
  encoding : PyStr
  type : PyStr
  status : Nat
  textC : Option PyStr := none
  jsonC : Option γ := none

/-- Reading `Response.text`: `cached_property` returns the stored value
if present, otherwise computes `self.decode(self.encoding)` (abstracted
as `decodeFn`) and stores it.  The result triple is (value, state after
the access, number of decode computations performed). -/
def accessText (decodeFn : List Nat → PyStr → PyStr) (s : RespState γ) :
    PyStr × RespState γ × Nat :=
  match s.textC with
  | some v => (v, s, 0)
  | none =>
    let v := decodeFn s.payload s.encoding
    (v, { s with textC := some v }, 1)

/-- Reading `Response.html`: a plain `property` that evaluates
`BeautifulSoup(self.text, "lxml")` (abstracted as `parseFn`) on every
access; only the inner `text` read can hit a cache.  The count is the
number of parse computations performed by this access. -/
def accessHtml (parseFn : PyStr → δ) (decodeFn : List Nat → PyStr → PyStr)
    (s : RespState γ) : δ × RespState γ × Nat :=
  let r := accessText decodeFn s
  (parseFn r.1, r.2.1, 1)

/-- Reading `Response.stream`: a plain `property` that builds a fresh
`BytesIO(self)` on every access. -/
def accessStream (s : RespState γ) : List Nat × RespState γ × Nat :=
  (s.payload, s, 1)

/-- Reading `Response.json`: `cached_property` over
`orjson.loads(bytes(self))` (abstracted as `loadsFn`). -/
def accessJson (loadsFn : List Nat → γ) (s : RespState γ) :
    γ × RespState γ × Nat :=
  match s.jsonC with
  | some v => (v, s, 0)
  | none =>
    let v := loadsFn s.payload
    (v, { s with jsonC := some v }, 1)

/-- Python's `enumerate`, starting at `n`. -/
def enumerate (n : Nat) : List α → List (Nat × α)
  | [] => []
  | x :: xs => (n, x) :: enumerate (n + 1) xs

/-- The comparison `sorted(res)` uses on the `(index, result)` pairs of
`helpers.alive_gather`: tuples compare by first component first, and the
indices produced by `enumerate` are distinct, so only the index
matters. -/
def idxLe (a b : Nat × α) : Prop := a.1 ≤ b.1

/-- Strict version of `idxLe`, used to state uniqueness of the sorted
order. -/
def idxLt (a b : Nat × α) : Prop := a.1 < b.1

instance : DecidableRel (@idxLe α) := fun a b => Nat.decLe a.1 b.1

instance : IsTotal (Nat × α) idxLe := ⟨fun a b => Nat.le_total a.1 b.1⟩

instance : IsTrans (Nat × α) idxLe := ⟨fun _ _ _ h1 h2 => Nat.le_trans h1 h2⟩

instance : IsAntisymm (Nat × α) idxLt :=
  ⟨fun a b h1 h2 => absurd (Nat.lt_trans h1 h2) (Nat.lt_irrefl a.1)⟩

/-- `helpers.alive_gather` (helpers.py:87-107), modelled at its join
point: the `asyncio.as_completed` loop yields the wrapped `(index,
result)` pairs in completion order (`completed`); the helper then
returns the results sorted by original index (the progress bar is
console output with no modelled effect). -/
def alive_gather (completed : List (Nat × α)) : List α :=
  (List.insertionSort idxLe completed).map Prod.snd

/-- `helpers.batch_generator` (helpers.py:166-172): repeatedly take the
next element and up to `batch_size - 1` more. -/
def batch_generator (l : List α) (batch_size : Nat) : List (List α) :=
  match l with
  | [] => []
  | x :: xs =>
    (x :: xs.take (batch_size - 1)) :: batch_generator (xs.drop (batch_size - 1)) batch_size
termination_by l.length
decreasing_by simp [List.length_drop]; omega


/-! ### Helper lemmas -/

theorem take_len_succ (s v : PyStr) (c : Char) :
    (s ++ c :: v).take (s.length + 1) = s ++ [c] := by
  induction s with
  | nil => simp
  | cons a t ih => simpa [List.take_succ_cons] using ih

/-! ### Claim theorems -/

/-- C4: `clean_text` does not normalise CRLF line endings.  The source
comment at helpers.py:149 announces that carriage returns followed by
newlines are replaced, but the raw string `r'\r\n'` makes the code
replace the literal backslash text instead, so a real CR/LF pair
survives cleaning untouched. -/
theorem clean_text_crlf_unnormalized :
    clean_text (("a\r\nb").data) = ("a\r\nb").data
    ∧ clean_text (("a\r\nb").data) ≠ ("a\nb").data
    ∧ clean_text (("a\\r\\nb").data) = ("a\nb").data := by
  decide

/-- C5: `clean_text` is not idempotent.  The substitution
`re.sub(r'(?<=\n)\s*(?=\n)', '\n', text)` at helpers.py:153 replaces the
interior of a blank line with a fresh linefeed instead of removing it,
so each application of `clean_text` grows the blank-line run: one pass
over "a\n\nb" yields "a\n\n\nb", a second pass yields "a\n\n\n\nb". -/
theorem clean_text_not_idempotent :
    clean_text (("a\n\nb").data) = ("a\n\n\nb").data
    ∧ clean_text (clean_text (("a\n\nb").data)) = ("a\n\n\n\nb").data
    ∧ clean_text (clean_text (("a\n\nb").data)) ≠ clean_text (("a\n\nb").data) := by
  decide

/-- C6: for type `decision`, `format_citation` returns exactly the
HTML-unescaped title with whitespace runs collapsed and trimmed — the
jurisdiction is never consulted and no abbreviation suffix is
appended, for every unescape function, title and jurisdiction. -/
theorem format_citation_decision_spec :
    ∀ (u : PyStr → PyStr) (title j j2 : PyStr),
      format_citation u title (("decision").data) j
        = .ok (pySplitJoin (collapseWs (u title)))
      ∧ format_citation u title (("decision").data) j
        = format_citation u title (("decision").data) j2 := by
  intro u title j j2
  constructor <;> simp [format_citation]

/-- C7: every constructed `Entry` has a `version_id` that begins with
its source id followed by a colon; `format_id` produces
"queensland_caselaw:abc123" from the raw id "abc123", and re-applying
`format_id` to an already formatted id is the identity. -/
theorem entry_version_id_spec :
    format_id (("abc123").data) (("queensland_caselaw").data)
      = ("queensland_caselaw:abc123").data
    ∧ (∀ v s : PyStr, format_id (format_id v s) s = format_id v s)
    ∧ ∀ (req : Request) (v s : PyStr) (t j d ti : Option PyStr),
        (Entry.make req v s t j d ti).version_id.take (s.length + 1) = s ++ [':'] := by
  refine ⟨by decide, fun v s => ?_, fun req v s t j d ti => ?_⟩
  · unfold format_id
    by_cases h : v.take (s.length + 1) = s ++ [':']
    · simp [h]
    · simp [h, take_len_succ]
  · show (format_id v s).take (s.length + 1) = s ++ [':']
    unfold format_id
    by_cases h : v.take (s.length + 1) = s ++ [':']
    · simp [h]
    · simp [h, take_len_succ]

theorem bg_nil (n : Nat) : batch_generator ([] : List α) n = [] := by
  simp [batch_generator]

theorem bg_cons (n : Nat) (x : α) (xs : List α) :
    batch_generator (x :: xs) n
      = (x :: xs.take (n - 1)) :: batch_generator (xs.drop (n - 1)) n := by
  rw [batch_generator]

theorem bg_eq_nil_iff (n : Nat) (l : List α) : batch_generator l n = [] ↔ l = [] := by
  cases l with
  | nil => simp [bg_nil]
  | cons x xs => simp [bg_cons]

theorem bg_props (n : Nat) (hn : 1 ≤ n) :
    ∀ (m : Nat) (l : List α), l.length ≤ m →
      (∀ b ∈ batch_generator l n, b ≠ [] ∧ b.length ≤ n)
      ∧ (batch_generator l n).flatten = l
      ∧ (∀ i, i < (batch_generator l n).length - 1 →
          ((batch_generator l n).getD i []).length = n) := by
  intro m
  induction m with
  | zero =>
    intro l hl
    have : l = [] := List.length_eq_zero.mp (Nat.le_zero.mp hl)
    subst this
    simp [bg_nil]
  | succ m ih =>
    intro l hl
    cases l with
    | nil => simp [bg_nil]
    | cons x xs =>
      have hd : (xs.drop (n - 1)).length ≤ m := by
        simp only [List.length_drop]
        have := List.length_cons x xs ▸ hl
        omega
      obtain ⟨h1, h2, h3⟩ := ih (xs.drop (n - 1)) hd
      rw [bg_cons]
      refine ⟨?_, ?_, ?_⟩
      · intro b hb
        rcases List.mem_cons.mp hb with hb | hb
        · subst hb
          refine ⟨by simp, ?_⟩
          have := List.length_take (n - 1) xs
          simp only [List.length_cons, this]
          omega
        · exact h1 b hb
      · simp only [List.flatten_cons, h2, List.cons_append, List.take_append_drop]
      · intro i hi
        cases i with
        | zero =>
          have hrest : batch_generator (xs.drop (n - 1)) n ≠ [] := by
            intro hr
            simp [hr] at hi
          have hxs : xs.drop (n - 1) ≠ [] := by
            intro hx
            exact hrest ((bg_eq_nil_iff n _).mpr hx)
          have hlen : n - 1 < xs.length := by
            by_contra hc
            push_neg at hc
            exact hxs (List.drop_eq_nil_of_le hc)
          simp only [List.getD_cons_zero, List.length_cons, List.length_take]
          omega
        | succ i =>
          simp only [List.getD_cons_succ]
          apply h3
          simp only [List.length_cons] at hi
          omega

theorem mem_enumerate_le {l : List α} {n : Nat} {p : Nat × α}
    (h : p ∈ enumerate n l) : n ≤ p.1 := by
  induction l generalizing n with
  | nil => simp [enumerate] at h
  | cons x xs ih =>
    simp only [enumerate, List.mem_cons] at h
    rcases h with h | h
    · subst h; exact Nat.le_refl n
    · exact Nat.le_of_succ_le (ih h)

theorem enumerate_pairwise_lt (n : Nat) (l : List α) :
    List.Pairwise idxLt (enumerate n l) := by
  induction l generalizing n with
  | nil => simp [enumerate]
  | cons x xs ih =>
    simp only [enumerate, List.pairwise_cons]
    exact ⟨fun p hp => Nat.lt_of_lt_of_le (Nat.lt_succ_self n) (mem_enumerate_le hp), ih (n + 1)⟩

theorem enumerate_map_snd (n : Nat) (l : List α) :
    (enumerate n l).map Prod.snd = l := by
  induction l generalizing n with
  | nil => rfl
  | cons x xs ih => simp [enumerate, ih]

theorem pairwise_idxLt_of_sorted_nodup {l : List (Nat × α)}
    (hs : List.Pairwise idxLe l) (hn : (l.map Prod.fst).Nodup) :
    List.Pairwise idxLt l := by
  have hne : List.Pairwise (fun a b : Nat × α => a.1 ≠ b.1) l := List.pairwise_map.mp hn
  exact (hs.and hne).imp fun h => Nat.lt_of_le_of_ne h.1 h.2

/-- C8: `alive_gather` is order-preserving — whatever completion order
the event loop produces for the wrapped `(index, result)` pairs, sorting
by original index restores exactly the input-aligned result list, for
every list of results and every completion order. -/
theorem alive_gather_order_spec (results : List α) (completed : List (Nat × α))
    (h : completed.Perm (enumerate 0 results)) : alive_gather completed = results := by
  have hperm : (List.insertionSort idxLe completed).Perm (enumerate 0 results) :=
    (List.perm_insertionSort idxLe completed).trans h
  have hsorted : List.Pairwise idxLe (List.insertionSort idxLe completed) :=
    List.sorted_insertionSort idxLe completed
  have hnodup : ((List.insertionSort idxLe completed).map Prod.fst).Nodup := by
    refine (hperm.map Prod.fst).nodup_iff.mpr ?_
    have := enumerate_pairwise_lt 0 results
    exact List.pairwise_map.mpr (this.imp fun hlt => Nat.ne_of_lt hlt)
  have heq : List.insertionSort idxLe completed = enumerate 0 results :=
    List.eq_of_perm_of_sorted hperm
      (pairwise_idxLt_of_sorted_nodup hsorted hnodup)
      (enumerate_pairwise_lt 0 results)
  unfold alive_gather
  rw [heq, enumerate_map_snd]

/-- C8 witness: three tasks completing in the order 2, 0, 1 still yield
the input-ordered results. -/
theorem alive_gather_order_spec_witness :
    [(2, 'c'), (0, 'a'), (1, 'b')].Perm (enumerate 0 ['a', 'b', 'c'])
    ∧ alive_gather [(2, 'c'), (0, 'a'), (1, 'b')] = ['a', 'b', 'c'] :=
  ⟨by decide, alive_gather_order_spec ['a', 'b', 'c'] [(2, 'c'), (0, 'a'), (1, 'b')] (by decide)⟩

/-- C10: for every list and every batch size of at least 1,
`batch_generator` yields only non-empty batches of length at most the
batch size, every batch except possibly the last is exactly full, and
the batches concatenate back to the original list. -/
theorem batch_generator_spec {α : Type} (l : List α) (n : Nat) (hn : 1 ≤ n) :
    (∀ b ∈ batch_generator l n, b ≠ [] ∧ b.length ≤ n)
    ∧ (batch_generator l n).flatten = l
    ∧ (∀ i, i < (batch_generator l n).length - 1 →
        ((batch_generator l n).getD i []).length = n) :=
  bg_props n hn l.length l (Nat.le_refl _)

/-- C10 witness: batching five elements two at a time. -/
theorem batch_generator_spec_witness :
    1 ≤ 2
    ∧ ((∀ b ∈ batch_generator [0, 1, 2, 3, 4] 2, b ≠ [] ∧ b.length ≤ 2)
       ∧ (batch_generator [0, 1, 2, 3, 4] 2).flatten = [0, 1, 2, 3, 4]
       ∧ (∀ i, i < (batch_generator [0, 1, 2, 3, 4] 2).length - 1 →
           ((batch_generator [0, 1, 2, 3, 4] 2).getD i []).length = 2)) :=
  ⟨by decide, batch_generator_spec [0, 1, 2, 3, 4] 2 (by decide)⟩

/-- C9 counterexample: the `html` and `stream` views of a `Response` are
plain `property`s (data.py:72, 76), not `cached_property`s — a second
access performs a fresh parse / builds a fresh byte-stream instead of
returning a memoized value, so not all four derived views are computed
only once. -/
theorem response_uncached_views_counterexample :
    (accessHtml (fun t => t.length) (fun _ _ => ("hi").data)
        ((accessHtml (fun t => t.length) (fun _ _ => ("hi").data)
          (⟨[104, 105], ("utf-8").data, ("text/html").data, 200, none, none⟩ :
            RespState Nat)).2.1)).2.2 ≠ 0
    ∧ (accessStream
        ((accessStream
          (⟨[104, 105], ("utf-8").data, ("text/html").data, 200, none, none⟩ :
            RespState Nat)).2.1)).2.2 ≠ 0 := by
  decide

/-- C9 (amended): on the single immutable `Response` instance, the
`text` and `json` views are computed on first access and memoized — a
repeated access performs no computation and returns the same value on an
unchanged state — while the `html` and `stream` views perform their
computation on every access; no access ever mutates the underlying byte
payload. -/
theorem response_views_spec :
    ∀ (γ δ : Type) (decodeFn : List Nat → PyStr → PyStr) (parseFn : PyStr → δ)
      (loadsFn : List Nat → γ) (s : RespState γ),
      ((accessText decodeFn (accessText decodeFn s).2.1).2.2 = 0
        ∧ (accessText decodeFn (accessText decodeFn s).2.1).1 = (accessText decodeFn s).1
        ∧ (accessText decodeFn (accessText decodeFn s).2.1).2.1 = (accessText decodeFn s).2.1)
      ∧ ((accessJson loadsFn (accessJson loadsFn s).2.1).2.2 = 0
        ∧ (accessJson loadsFn (accessJson loadsFn s).2.1).1 = (accessJson loadsFn s).1
        ∧ (accessJson loadsFn (accessJson loadsFn s).2.1).2.1 = (accessJson loadsFn s).2.1)
      ∧ (accessHtml parseFn decodeFn s).2.2 ≥ 1
      ∧ (accessStream s).2.2 = 1
      ∧ (accessText decodeFn s).2.1.payload = s.payload
      ∧ (accessHtml parseFn decodeFn s).2.1.payload = s.payload
      ∧ (accessStream s).2.1.payload = s.payload
      ∧ (accessStream s).1 = s.payload
      ∧ (accessJson loadsFn s).2.1.payload = s.payload := by
  intro γ δ decodeFn parseFn loadsFn s
  cases hT : s.textC <;> cases hJ : s.jsonC <;>
    simp [accessText, accessHtml, accessStream, accessJson, hT, hJ]

/-- Remove the first entry carrying key `k`. -/
def eraseKey (k : PyStr) : List (PyStr × PyStr) → List (PyStr × PyStr)
  | [] => []
  | p :: t => if p.1 = k then t else p :: eraseKey k t

theorem plookup_eq_none_of_not_mem {k : PyStr} {l : List (PyStr × PyStr)}
    (h : k ∉ l.map Prod.fst) : plookup k l = none := by
  induction l with
  | nil => rfl
  | cons p t ih =>
    simp only [List.map_cons, List.mem_cons] at h
    push_neg at h
    simp only [plookup]
    rw [if_neg (fun hc => h.1 hc.symm)]
    exact ih h.2

theorem plookup_of_mem_nodup {l : List (PyStr × PyStr)} {p : PyStr × PyStr}
    (hn : NodupKeysP l) (hp : p ∈ l) : plookup p.1 l = some p.2 := by
  induction l with
  | nil => simp at hp
  | cons q t ih =>
    have hn2 : q.1 ∉ t.map Prod.fst ∧ NodupKeysP t := by
      simpa [NodupKeysP, List.nodup_cons] using hn
    rcases List.mem_cons.mp hp with hp | hp
    · subst hp; simp [plookup]
    · by_cases hq : q.1 = p.1
      · exact absurd (hq ▸ List.mem_map_of_mem Prod.fst hp) hn2.1
      · simp only [plookup, if_neg hq]
        exact ih hn2.2 hp

theorem eq_nil_of_plookup_none {l : List (PyStr × PyStr)}
    (h : ∀ k, plookup k l = none) : l = [] := by
  cases l with
  | nil => rfl
  | cons p t =>
    have := h p.1
    simp [plookup] at this

theorem perm_cons_eraseKey {l : List (PyStr × PyStr)} {k : PyStr} {v : PyStr}
    (h : plookup k l = some v) : l.Perm ((k, v) :: eraseKey k l) := by
  induction l with
  | nil => simp [plookup] at h
  | cons p t ih =>
    obtain ⟨a, b⟩ := p
    by_cases hp : a = k
    · have h2 : b = v := by simpa [plookup, hp] using h
      subst hp
      subst h2
      simp [eraseKey]
    · have h2 : plookup k t = some v := by simpa [plookup, hp] using h
      simp only [eraseKey]
      rw [if_neg hp]
      exact (List.Perm.cons _ (ih h2)).trans (List.Perm.swap (k, v) (a, b) (eraseKey k t))

theorem plookup_eraseKey_ne {l : List (PyStr × PyStr)} {k k' : PyStr}
    (h : k' ≠ k) : plookup k' (eraseKey k l) = plookup k' l := by
  induction l with
  | nil => rfl
  | cons p t ih =>
    by_cases hp : p.1 = k
    · simp only [eraseKey, if_pos hp, plookup]
      rw [if_neg (fun hc => h (hc.symm.trans hp))]
    · simp only [eraseKey, if_neg hp, plookup]
      by_cases hq : p.1 = k'
      · simp [hq]
      · simp [hq, ih]

theorem eraseKey_sublist (k : PyStr) (l : List (PyStr × PyStr)) :
    (eraseKey k l).Sublist l := by
  induction l with
  | nil => simp [eraseKey]
  | cons p t ih =>
    by_cases hp : p.1 = k
    · simp only [eraseKey, if_pos hp]
      exact List.sublist_cons_self p t
    · simp only [eraseKey, if_neg hp]
      exact ih.cons₂ p

theorem nodupKeysP_eraseKey {l : List (PyStr × PyStr)} (k : PyStr)
    (h : NodupKeysP l) : NodupKeysP (eraseKey k l) :=
  ((eraseKey_sublist k l).map Prod.fst).nodup h

theorem plookup_eraseKey_self {l : List (PyStr × PyStr)} {k : PyStr}
    (h : NodupKeysP l) : plookup k (eraseKey k l) = none := by
  induction l with
  | nil => rfl
  | cons p t ih =>
    have hn2 : p.1 ∉ t.map Prod.fst ∧ NodupKeysP t := by
      simpa [NodupKeysP, List.nodup_cons] using h
    by_cases hp : p.1 = k
    · simp only [eraseKey, if_pos hp]
      exact plookup_eq_none_of_not_mem (hp ▸ hn2.1)
    · simp only [eraseKey, if_neg hp, plookup, if_neg hp]
      exact ih hn2.2

theorem perm_of_plookup_eq {l1 l2 : List (PyStr × PyStr)}
    (h1 : NodupKeysP l1) (h2 : NodupKeysP l2)
    (h : ∀ k, plookup k l1 = plookup k l2) : l1.Perm l2 := by
  induction l1 generalizing l2 with
  | nil =>
    have : l2 = [] := eq_nil_of_plookup_none (fun k => ((h k).symm).trans rfl)
    simp [this]
  | cons p t ih =>
    obtain ⟨a, b⟩ := p
    have hn2 : a ∉ t.map Prod.fst ∧ NodupKeysP t := by
      simpa [NodupKeysP, List.nodup_cons] using h1
    have hv : plookup a l2 = some b := by
      rw [← h a]; simp [plookup]
    have hperm2 : l2.Perm ((a, b) :: eraseKey a l2) := perm_cons_eraseKey hv
    have htail : t.Perm (eraseKey a l2) := by
      refine ih hn2.2 (nodupKeysP_eraseKey a h2) fun k => ?_
      by_cases hk : k = a
      · subst hk
        rw [plookup_eq_none_of_not_mem hn2.1, plookup_eraseKey_self h2]
      · rw [plookup_eraseKey_ne hk, ← h k]
        simp only [plookup]
        rw [if_neg (fun hc : (a, b).1 = k => hk hc.symm)]
    exact (List.Perm.cons (a, b) htail).trans hperm2.symm

theorem dictEqB_of_plookup_eq {d1 d2 : List (PyStr × PyStr)}
    (h1 : NodupKeysP d1) (h2 : NodupKeysP d2)
    (h : ∀ k, plookup k d1 = plookup k d2) : dictEqB d1 d2 = true := by
  simp only [dictEqB, Bool.and_eq_true, List.all_eq_true, beq_iff_eq]
  constructor
  · intro p hp
    rw [← h p.1]
    exact plookup_of_mem_nodup h1 hp
  · intro p hp
    rw [h p.1]
    exact plookup_of_mem_nodup h2 hp

theorem dictHash_of_plookup_eq {d1 d2 : List (PyStr × PyStr)}
    (h1 : NodupKeysP d1) (h2 : NodupKeysP d2)
    (h : ∀ k, plookup k d1 = plookup k d2) : dictHash d1 = dictHash d2 :=
  ((perm_of_plookup_eq h1 h2 h).map entryHash).sum_eq

/-- C2: two `Request`s whose scalar fields are equal and whose body and
header mappings agree as key-to-value functions — whatever the insertion
order of the entries — are equal, hash identically, and collapse to a
single member when inserted into a set. -/
theorem request_value_eq_hash (r1 r2 : Request)
    (hd1 : NodupKeysP r1.data) (hd2 : NodupKeysP r2.data)
    (hh1 : NodupKeysP r1.headers) (hh2 : NodupKeysP r2.headers)
    (hp : r1.path = r2.path) (hm : r1.method = r2.method)
    (hd : ∀ k, plookup k r1.data = plookup k r2.data)
    (hh : ∀ k, plookup k r1.headers = plookup k r2.headers)
    (he : r1.encoding = r2.encoding) (hs : r1.selenium = r2.selenium) :
    requestEqB r1 r2 = true ∧ requestHash r1 = requestHash r2
    ∧ pySetInsert r2 (pySetInsert r1 []) = [r1] := by
  have heq : requestEqB r1 r2 = true := by
    simp only [requestEqB, Bool.and_eq_true, beq_iff_eq]
    exact ⟨⟨⟨⟨⟨hp, hm⟩, dictEqB_of_plookup_eq hd1 hd2 hd⟩,
      dictEqB_of_plookup_eq hh1 hh2 hh⟩, he⟩, hs⟩
  refine ⟨heq, ?_, ?_⟩
  · simp only [requestHash, hp, hm, he, hs,
      dictHash_of_plookup_eq hd1 hd2 hd, dictHash_of_plookup_eq hh1 hh2 hh]
  · simp [pySetInsert, heq]

/-- C2 witness: two concrete requests whose body mappings list the same
entries in opposite insertion orders. -/
theorem request_value_eq_hash_witness :
    requestEqB
        { path := ("p").data,
          data := [(("a").data, ("1").data), (("b").data, ("2").data)] }
        { path := ("p").data,
          data := [(("b").data, ("2").data), (("a").data, ("1").data)] } = true
    ∧ requestHash
        { path := ("p").data,
          data := [(("a").data, ("1").data), (("b").data, ("2").data)] }
      = requestHash
        { path := ("p").data,
          data := [(("b").data, ("2").data), (("a").data, ("1").data)] }
    ∧ pySetInsert
        { path := ("p").data,
          data := [(("b").data, ("2").data), (("a").data, ("1").data)] }
        (pySetInsert
          { path := ("p").data,
            data := [(("a").data, ("1").data), (("b").data, ("2").data)] } [])
      = [{ path := ("p").data,
           data := [(("a").data, ("1").data), (("b").data, ("2").data)] }] := by
  refine request_value_eq_hash _ _ (by decide) (by decide) (by decide) (by decide)
    rfl rfl (fun k => ?_) (fun _ => rfl) rfl rfl
  by_cases h1 : (("a").data : PyStr) = k <;> by_cases h2 : (("b").data : PyStr) = k
  · exact absurd (h1.trans h2.symm) (by decide)
  · simp [plookup, h1, h2]
  · simp [plookup, h1, h2]
  · simp [plookup, h1, h2]

theorem takeWhile_append_all {p : Char → Bool} {xs : PyStr} (ys : PyStr)
    (h : ∀ x ∈ xs, p x = true) : (xs ++ ys).takeWhile p = xs ++ ys.takeWhile p := by
  induction xs with
  | nil => rfl
  | cons c cs ih =>
    have hc : p c = true := h c (by simp)
    simp only [List.cons_append, List.takeWhile_cons, hc, if_true]
    rw [ih (fun x hx => h x (by simp [hx]))]

theorem dropWhile_append_all {p : Char → Bool} {xs : PyStr} (ys : PyStr)
    (h : ∀ x ∈ xs, p x = true) : (xs ++ ys).dropWhile p = ys.dropWhile p := by
  induction xs with
  | nil => rfl
  | cons c cs ih =>
    have hc : p c = true := h c (by simp)
    simp only [List.cons_append, List.dropWhile_cons, hc, if_true]
    exact ih (fun x hx => h x (by simp [hx]))

theorem stripNoSuffix_strips (t ds : PyStr) (h1 : ds ≠ [])
    (h2 : ∀ c ∈ ds, c.isDigit = true) :
    stripNoSuffix ((t ++ [' ', 'N', 'o', ' ']) ++ ds) = t := by
  have hd : ∀ c ∈ ds.reverse, (fun c : Char => c.isDigit) c = true :=
    fun c hc => h2 c (List.mem_reverse.mp hc)
  have e1 : ((t ++ [' ', 'N', 'o', ' ']) ++ ds).reverse
      = ds.reverse ++ (' ' :: 'o' :: 'N' :: ' ' :: t.reverse) := by
    simp
  have e2 : (ds.reverse ++ (' ' :: 'o' :: 'N' :: ' ' :: t.reverse)).takeWhile
      (fun c : Char => c.isDigit) = ds.reverse := by
    rw [takeWhile_append_all _ hd]
    simp [List.takeWhile_cons, show (' ' : Char).isDigit = false from rfl]
  have e3 : (ds.reverse ++ (' ' :: 'o' :: 'N' :: ' ' :: t.reverse)).dropWhile
      (fun c : Char => c.isDigit) = ' ' :: 'o' :: 'N' :: ' ' :: t.reverse := by
    rw [dropWhile_append_all _ hd]
    simp [List.dropWhile_cons, show (' ' : Char).isDigit = false from rfl]
  obtain ⟨d, ds2, hds⟩ := List.exists_cons_of_ne_nil (fun hc : ds.reverse = [] =>
    h1 (by simpa using congrArg List.reverse hc))
  unfold stripNoSuffix
  simp only []
  rw [e1, e2, e3, hds]
  simp [List.takeWhile_cons, List.dropWhile_cons,
    show isWs ' ' = true from rfl, show isWs 'o' = false from rfl]

theorem isPrefixOf_append_self (p rest : PyStr) : p.isPrefixOf (p ++ rest) = true := by
  induction p with
  | nil => simp [List.isPrefixOf]
  | cons c cs ih => simp [List.isPrefixOf, ih]

theorem splitFirstAt_strips (sep pre post : PyStr) (hsep : sep ≠ [])
    (h : ∀ i, i < pre.length → sep.isPrefixOf ((pre ++ (sep ++ post)).drop i) = false) :
    splitFirstAt sep (pre ++ (sep ++ post)) = pre := by
  induction pre with
  | nil =>
    obtain ⟨c, cs, hc⟩ := List.exists_cons_of_ne_nil hsep
    subst hc
    have hp : (c :: cs).isPrefixOf (c :: (cs ++ post)) = true :=
      isPrefixOf_append_self (c :: cs) post
    simp [splitFirstAt, hp]
  | cons a pre2 ih =>
    have h0 : sep.isPrefixOf (a :: (pre2 ++ (sep ++ post))) = false := by
      simpa using h 0 (by simp)
    have hih : splitFirstAt sep (pre2 ++ (sep ++ post)) = pre2 :=
      ih (fun i hi => by simpa using h (i + 1) (by simp only [List.length_cons]; omega))
    simp [splitFirstAt, h0, hih]

theorem collapseWsAux_all_nonws {w : PyStr} (hw : ∀ c ∈ w, isWs c = false) :
    ∀ b, collapseWsAux b w = w := by
  induction w with
  | nil => intro b; rfl
  | cons c cs ih =>
    intro b
    have hc : isWs c = false := hw c (by simp)
    simp only [collapseWsAux, hc, Bool.false_eq_true, if_false]
    rw [ih (fun x hx => hw x (by simp [hx]))]

theorem collapseWsAux_append_nonws {w : PyStr} (hw : ∀ c ∈ w, isWs c = false) :
    ∀ (y : PyStr) (b : Bool), ∃ p, collapseWsAux b (y ++ w) = p ++ w := by
  intro y
  induction y with
  | nil =>
    intro b
    exact ⟨[], by simp [collapseWsAux_all_nonws hw b]⟩
  | cons c y2 ih =>
    intro b
    by_cases hc : isWs c = true
    · by_cases hb : b = true
      · obtain ⟨p, hp⟩ := ih true
        exact ⟨p, by simp [collapseWsAux, hc, hb, hp]⟩
      · obtain ⟨p, hp⟩ := ih true
        refine ⟨' ' :: p, ?_⟩
        simp only [Bool.not_eq_true] at hb
        simp [collapseWsAux, hc, hb, hp]
    · obtain ⟨p, hp⟩ := ih false
      have hc2 : isWs c = false := by simpa using hc
      exact ⟨c :: p, by simp [collapseWsAux, hc2, hp]⟩

theorem pyWordsAux_all_nonws :
    ∀ (w cur : PyStr), (∀ c ∈ w, isWs c = false) →
      pyWordsAux cur w
        = if cur = [] ∧ w = [] then [] else [cur.reverse ++ w] := by
  intro w
  induction w with
  | nil =>
    intro cur _
    by_cases hcur : cur = [] <;> simp [pyWordsAux, hcur, List.isEmpty_iff]
  | cons c cs ih =>
    intro cur hw
    have hc : isWs c = false := hw c (by simp)
    simp only [pyWordsAux, hc, Bool.false_eq_true, if_false]
    rw [ih (c :: cur) (fun x hx => hw x (by simp [hx]))]
    simp

theorem pyWordsAux_append_nonws {w : PyStr} (hw : ∀ c ∈ w, isWs c = false)
    (hne : w ≠ []) :
    ∀ (q cur : PyStr), ∃ ws1 w1, pyWordsAux cur (q ++ w) = ws1 ++ [w1] ∧ w <:+ w1 := by
  intro q
  induction q with
  | nil =>
    intro cur
    refine ⟨[], cur.reverse ++ w, ?_, List.suffix_append cur.reverse w⟩
    rw [List.nil_append, pyWordsAux_all_nonws w cur hw]
    simp [hne]
  | cons c q2 ih =>
    intro cur
    by_cases hc : isWs c = true
    · by_cases hcur : cur = []
      · obtain ⟨ws1, w1, he, hs⟩ := ih []
        exact ⟨ws1, w1, by simp [pyWordsAux, hc, hcur, List.isEmpty_iff, he], hs⟩
      · obtain ⟨ws1, w1, he, hs⟩ := ih []
        exact ⟨cur.reverse :: ws1, w1,
          by simp [pyWordsAux, hc, hcur, List.isEmpty_iff, he], hs⟩
    · obtain ⟨ws1, w1, he, hs⟩ := ih (c :: cur)
      have hc2 : isWs c = false := by simpa using hc
      exact ⟨ws1, w1, by simp [pyWordsAux, hc2, he], hs⟩

theorem pyWordsAux_words_ok :
    ∀ (s cur : PyStr), (∀ c ∈ cur, isWs c = false) →
      ∀ w ∈ pyWordsAux cur s, w ≠ [] ∧ ∀ c ∈ w, isWs c = false := by
  intro s
  induction s with
  | nil =>
    intro cur hcur w hw
    by_cases hc : cur = []
    · simp [pyWordsAux, hc] at hw
    · simp [pyWordsAux, List.isEmpty_iff, hc] at hw
      subst hw
      exact ⟨by simpa using hc, fun c hc2 => hcur c (List.mem_reverse.mp hc2)⟩
  | cons c cs ih =>
    intro cur hcur w hw
    by_cases hc : isWs c = true
    · by_cases hcn : cur = []
      · simp only [pyWordsAux, hc, if_true, hcn, List.isEmpty_nil] at hw
        exact ih [] (by simp) w hw
      · have hw2 : w = cur.reverse ∨ w ∈ pyWordsAux [] cs := by
          simpa [pyWordsAux, hc, List.isEmpty_iff, hcn] using hw
        rcases hw2 with h1 | h1
        · subst h1
          exact ⟨by simpa using hcn, fun x hx => hcur x (List.mem_reverse.mp hx)⟩
        · exact ih [] (by simp) w h1
    · have hc2 : isWs c = false := by simpa using hc
      simp only [pyWordsAux, hc2, Bool.false_eq_true, if_false] at hw
      refine ih (c :: cur) ?_ w hw
      intro x hx
      rcases List.mem_cons.mp hx with hx | hx
      · subst hx; exact hc2
      · exact hcur x hx

theorem joinSp_cons_cons (w x : PyStr) (xs : List PyStr) :
    joinSp (w :: x :: xs) = w ++ ' ' :: joinSp (x :: xs) := rfl

theorem joinSp_concat_last (ws1 : List PyStr) (w1 : PyStr) :
    ∃ p, joinSp (ws1 ++ [w1]) = p ++ w1 := by
  induction ws1 with
  | nil => exact ⟨[], rfl⟩
  | cons a rest ih =>
    obtain ⟨p, hp⟩ := ih
    cases rest with
    | nil => exact ⟨a ++ [' '], by simp [joinSp]⟩
    | cons b rest2 =>
      refine ⟨a ++ ' ' :: p, ?_⟩
      rw [List.cons_append, List.cons_append, joinSp_cons_cons]
      rw [List.cons_append] at hp
      rw [hp]
      simp

theorem joinSp_ne_nil (w : PyStr) (ws : List PyStr) (hw : w ≠ []) :
    joinSp (w :: ws) ≠ [] := by
  cases ws with
  | nil => simpa [joinSp] using hw
  | cons x xs => simp [joinSp_cons_cons, hw]

/-- The result of collapsing whitespace runs to single spaces and
trimming: no leading or trailing whitespace, no two adjacent whitespace
characters, and every whitespace character is a plain space. -/
def WsClean (r : PyStr) : Prop :=
  (∀ c, r.head? = some c → isWs c = false) ∧
  (∀ c, r.getLast? = some c → isWs c = false) ∧
  List.Chain' (fun a b => isWs a = false ∨ isWs b = false) r ∧
  (∀ c ∈ r, isWs c = true → c = ' ')

theorem chain_of_all_nonws {r : PyStr} (h : ∀ c ∈ r, isWs c = false) :
    List.Chain' (fun a b => isWs a = false ∨ isWs b = false) r := by
  induction r with
  | nil => simp
  | cons a t iht =>
    cases t with
    | nil => simp
    | cons b t2 =>
      rw [List.chain'_cons]
      exact ⟨Or.inl (h a (by simp)),
        iht (fun c hc => h c (List.mem_cons_of_mem a hc))⟩

theorem wsClean_joinSp :
    ∀ (ws : List PyStr), (∀ w ∈ ws, w ≠ [] ∧ ∀ c ∈ w, isWs c = false) →
      WsClean (joinSp ws) := by
  intro ws
  induction ws with
  | nil =>
    intro _
    exact ⟨by simp [joinSp], by simp [joinSp], by simp [joinSp], by simp [joinSp]⟩
  | cons w rest ih =>
    intro h
    obtain ⟨hwne, hwnw⟩ := h w (by simp)
    have hrest : ∀ w2 ∈ rest, w2 ≠ [] ∧ ∀ c ∈ w2, isWs c = false :=
      fun w2 hw2 => h w2 (List.mem_cons_of_mem w hw2)
    cases rest with
    | nil =>
      refine ⟨?_, ?_, chain_of_all_nonws hwnw, ?_⟩
      · intro c hc
        exact hwnw c (List.mem_of_mem_head? hc)
      · intro c hc
        exact hwnw c (List.mem_of_mem_getLast? hc)
      · intro c hc hws
        exact absurd hws (by simp [hwnw c hc])
    | cons w2 rest2 =>
      obtain ⟨ihh, ihl, ihc, ihs⟩ := ih hrest
      have hw2ne : w2 ≠ [] := (hrest w2 (by simp)).1
      have hJne : joinSp (w2 :: rest2) ≠ [] := joinSp_ne_nil w2 rest2 hw2ne
      rw [joinSp_cons_cons]
      refine ⟨?_, ?_, ?_, ?_⟩
      · intro c hc
        rw [List.head?_append_of_ne_nil w hwne] at hc
        exact hwnw c (List.mem_of_mem_head? hc)
      · intro c hc
        rw [List.getLast?_append_of_ne_nil w (by simp)] at hc
        obtain ⟨j, js, hj⟩ := List.exists_cons_of_ne_nil hJne
        rw [hj, List.getLast?_cons_cons] at hc
        rw [← hj] at hc
        exact ihl c hc
      · rw [List.chain'_append]
        refine ⟨chain_of_all_nonws hwnw, ?_, ?_⟩
        · rw [List.chain'_cons']
          refine ⟨?_, ihc⟩
          intro y hy
          right
          exact ihh y hy
        · intro x hx y hy
          left
          exact hwnw x (List.mem_of_mem_getLast? hx)
      · intro c hc hws
        rcases List.mem_append.mp hc with hc | hc
        · exact absurd hws (by simp [hwnw c hc])
        · rcases List.mem_cons.mp hc with hc | hc
          · exact hc.symm ▸ rfl
          · exact ihs c hc hws

/-- C3 counterexample: the jurisdiction table of `format_citation` has
10 entries, not 9 — `norfolk_island` is the tenth, and formatting under
it succeeds with the suffix `(NI)` instead of raising. -/
theorem jurisdictions_table_size_counterexample :
    JURISDICTIONS.length = 10 ∧ JURISDICTIONS.length ≠ 9
    ∧ format_citation (fun s => s) (("T").data) (("primary_legislation").data)
        (("norfolk_island").data) = .ok (("T (NI)").data) := by
  decide

/-- C3 (amended: the fixed jurisdiction table has 10 entries, not 9):
for every non-`decision` type, `format_citation` strips a trailing
`No <digits>` suffix from the unescaped title, strips from the first
pre-existing occurrence of the parenthesised abbreviation onwards,
raises a fatal error for a jurisdiction outside the table, appends the
canonical parenthesised abbreviation (the result ends with it), and
collapses/trims whitespace; `format_citation("Native Title Act No 45",
"primary_legislation", "new_south_wales")` = "Native Title Act (NSW)". -/
theorem format_citation_nondecision_spec :
    (∀ (t ds : PyStr), ds ≠ [] → (∀ c ∈ ds, c.isDigit = true) →
       stripNoSuffix ((t ++ [' ', 'N', 'o', ' ']) ++ ds) = t)
    ∧ (∀ (sep pre post : PyStr), sep ≠ [] →
        (∀ i, i < pre.length → sep.isPrefixOf ((pre ++ (sep ++ post)).drop i) = false) →
        splitFirstAt sep (pre ++ (sep ++ post)) = pre)
    ∧ (∀ (u : PyStr → PyStr) (title ty j : PyStr), ty ≠ ("decision").data →
        (jlookup j = none →
          format_citation u title ty j
            = .error ((("Unable to find an abbreviated form of the following jurisdiction: ").data
              ++ j) ++ (".").data))
        ∧ (∀ abbr, jlookup j = some abbr →
            ∃ r, format_citation u title ty j = .ok r
              ∧ (('(' :: abbr) ++ [')']) <:+ r ∧ WsClean r))
    ∧ format_citation (fun s => s) (("Native Title Act No 45").data)
        (("primary_legislation").data) (("new_south_wales").data)
      = .ok (("Native Title Act (NSW)").data) := by
  refine ⟨stripNoSuffix_strips, splitFirstAt_strips, ?_, by decide⟩
  intro u title ty j hty
  constructor
  · intro hnone
    unfold format_citation
    rw [if_pos hty, hnone]
  · intro abbr habbr
    have htable : ∀ q ∈ JURISDICTIONS, q.2 ≠ [] ∧ ∀ c ∈ q.2, isWs c = false := by decide
    have habbr_ok : abbr ≠ [] ∧ ∀ c ∈ abbr, isWs c = false := by
      unfold jlookup at habbr
      cases hF : JURISDICTIONS.find? (fun p => p.1 == j) with
      | none => rw [hF] at habbr; simp at habbr
      | some p =>
        rw [hF] at habbr
        simp at habbr
        exact habbr ▸ htable p (List.mem_of_find?_eq_some hF)
    have heq : format_citation u title ty j
        = .ok (pySplitJoin (collapseWs
            ((splitFirstAt (('(' :: abbr) ++ [')']) (stripNoSuffix (u title))
              ++ (' ' :: '(' :: abbr)) ++ [')']))) := by
      unfold format_citation
      rw [if_pos hty, habbr]
    refine ⟨_, heq, ?_, ?_⟩
    · have hwnw : ∀ c ∈ ('(' :: abbr) ++ [')'], isWs c = false := by
        intro c hc
        rcases List.mem_append.mp hc with hc | hc
        · rcases List.mem_cons.mp hc with hc | hc
          · subst hc; rfl
          · exact habbr_ok.2 c hc
        · rcases List.mem_cons.mp hc with hc | hc
          · subst hc; rfl
          · simp at hc
      have ht4 : (splitFirstAt (('(' :: abbr) ++ [')']) (stripNoSuffix (u title))
            ++ (' ' :: '(' :: abbr)) ++ [')']
          = (splitFirstAt (('(' :: abbr) ++ [')']) (stripNoSuffix (u title)) ++ [' '])
            ++ (('(' :: abbr) ++ [')']) := by
        simp
      obtain ⟨p, hp⟩ := collapseWsAux_append_nonws hwnw
        (splitFirstAt (('(' :: abbr) ++ [')']) (stripNoSuffix (u title)) ++ [' ']) false
      obtain ⟨ws1, w1, hwords, hsuf⟩ :=
        pyWordsAux_append_nonws hwnw (by simp) p []
      obtain ⟨q, hq⟩ := joinSp_concat_last ws1 w1
      show (('(' :: abbr) ++ [')']) <:+ pySplitJoin (collapseWs _)
      rw [ht4]
      unfold pySplitJoin pyWords collapseWs
      rw [hp, hwords, hq]
      exact hsuf.trans (List.suffix_append q w1)
    · exact wsClean_joinSp _ (fun w2 hw2 =>
        pyWordsAux_words_ok _ [] (by simp) w2 hw2)

/-- C3 witness: a concrete non-decision formatting run through the
amended theorem. -/
theorem format_citation_nondecision_spec_witness :
    ((("primary_legislation").data : PyStr) ≠ ("decision").data)
    ∧ jlookup (("victoria").data) = some (("Vic").data)
    ∧ ∃ r, format_citation (fun s => s) (("Some Act").data)
        (("primary_legislation").data) (("victoria").data) = .ok r
        ∧ (('(' :: ("Vic").data) ++ [')']) <:+ r ∧ WsClean r :=
  ⟨by decide, by decide,
    (format_citation_nondecision_spec.2.2.1 (fun s => s) (("Some Act").data)
      (("primary_legislation").data) (("victoria").data) (by decide)).2
      (("Vic").data) (by decide)⟩

/-- C1 counterexample: the length check uses Python `\W` (word
characters: letters, digits, underscore), not "non-alphabetic" — the
text "123456789" has no alphabetic characters at all, yet `make_doc`
returns a populated Document; and for a clearly long enough text
`make_section` raises a `TypeError` (it passes a `jurisdiction` keyword
that `Section` does not declare) instead of returning a populated
Section. -/
theorem make_doc_nonword_counterexample :
    ((("123456789").data.filter (fun c => c.isAlpha)).length < 9)
    ∧ make_doc (fun s => s) (("ts").data) (("v").data) (("decision").data) (("j").data)
        (("s").data) (("m").data) (("d").data) (("cit").data) (("u").data)
        (("123456789").data)
      = .ok (some ⟨("v").data, ("decision").data, ("j").data, ("s").data, ("m").data,
          ("d").data, ("cit").data, ("u").data, ("ts").data, ("123456789").data⟩)
    ∧ (9 ≤ (stripNonWord (clean_text (("some legal words").data))).length)
    ∧ make_section (fun s => s) (("ts").data) (("v").data) (("j").data) (("decision").data)
        (("n").data) (("t").data) (("cit").data) (("u").data) (("some legal words").data)
      = .error (("Unexpected keyword argument jurisdiction").data) := by
  decide

/-- C1 (amended: the threshold strips non-word characters — Python
`\W`, keeping letters, digits and underscores — rather than
non-alphabetic ones; and above the threshold `make_doc` returns a
populated Document while `make_section` raises a `TypeError` because it
passes a `jurisdiction` keyword that `Section` does not declare):
whenever citation formatting succeeds, both constructors return `None`
exactly when the cleaned text stripped of non-word characters has fewer
than 9 characters — as "12 34" does — emitting only a warning. -/
theorem make_doc_make_section_none_iff :
    ∀ (u : PyStr → PyStr) (now vid ty j src mime date cit url num ti text c : PyStr),
      format_citation u cit ty j = .ok c →
      ((make_doc u now vid ty j src mime date cit url text = .ok none
          ↔ (stripNonWord (clean_text text)).length < 9)
        ∧ (make_section u now vid j ty num ti cit url text = .ok none
          ↔ (stripNonWord (clean_text text)).length < 9)
        ∧ (9 ≤ (stripNonWord (clean_text text)).length →
            (∃ d, make_doc u now vid ty j src mime date cit url text = .ok (some d))
            ∧ make_section u now vid j ty num ti cit url text
              = .error (("Unexpected keyword argument jurisdiction").data))
        ∧ make_doc u now vid ty j src mime date cit url (("12 34").data) = .ok none) := by
  intro u now vid ty j src mime date cit url num ti text c hc
  refine ⟨?_, ?_, ?_, ?_⟩
  · unfold make_doc
    rw [hc]
    by_cases hlt : (stripNonWord (clean_text text)).length < 9
    · simp [hlt]
    · simp [hlt]
  · unfold make_section
    rw [hc]
    by_cases hlt : (stripNonWord (clean_text text)).length < 9
    · simp [hlt]
    · simp [hlt]
  · intro hge
    have hlt : ¬ (stripNonWord (clean_text text)).length < 9 := by omega
    constructor
    · refine ⟨⟨vid, ty, j, src, mime, date, c, url, now, clean_text text⟩, ?_⟩
      unfold make_doc
      rw [hc]
      simp [hlt]
    · unfold make_section
      rw [hc]
      simp [hlt]
  · unfold make_doc
    rw [hc]
    have h12 : (stripNonWord (clean_text (("12 34").data))).length < 9 := by decide
    simp [h12]

/-- C1 witness: a concrete `decision`-typed construction run where
citation formatting succeeds, instantiated at the text "12 34". -/
theorem make_doc_make_section_none_iff_witness :
    format_citation (fun s => s) (("c").data) (("decision").data) (("j").data)
      = .ok (("c").data)
    ∧ ((make_doc (fun s => s) (("now").data) (("v").data) (("decision").data) (("j").data)
          (("s").data) (("m").data) (("d").data) (("c").data) (("u").data)
          (("12 34").data) = .ok none
        ↔ (stripNonWord (clean_text (("12 34").data))).length < 9)
      ∧ (make_section (fun s => s) (("now").data) (("v").data) (("j").data)
          (("decision").data) (("n").data) (("t").data) (("c").data) (("u").data)
          (("12 34").data) = .ok none
        ↔ (stripNonWord (clean_text (("12 34").data))).length < 9)
      ∧ (9 ≤ (stripNonWord (clean_text (("12 34").data))).length →
          (∃ d, make_doc (fun s => s) (("now").data) (("v").data) (("decision").data)
            (("j").data) (("s").data) (("m").data) (("d").data) (("c").data) (("u").data)
            (("12 34").data) = .ok (some d))
          ∧ make_section (fun s => s) (("now").data) (("v").data) (("j").data)
              (("decision").data) (("n").data) (("t").data) (("c").data) (("u").data)
              (("12 34").data)
            = .error (("Unexpected keyword argument jurisdiction").data))
      ∧ make_doc (fun s => s) (("now").data) (("v").data) (("decision").data) (("j").data)
          (("s").data) (("m").data) (("d").data) (("c").data) (("u").data)
          (("12 34").data) = .ok none) :=
  ⟨by decide,
    make_doc_make_section_none_iff (fun s => s) (("now").data) (("v").data)
      (("decision").data) (("j").data) (("s").data) (("m").data) (("d").data)
      (("c").data) (("u").data) (("n").data) (("t").data) (("12 34").data)
      (("c").data) (by decide)⟩

/-! ### Cross-validation of the regex embedding against CPython
Each equality below reproduces the output of the corresponding
Python expression (`re.sub`-based pipeline steps, `format_citation`,
`make_doc`) on the same input. -/

example : format_citation (fun s => s) (("Native Title Act No 45").data)
    (("primary_legislation").data) (("new_south_wales").data)
    = .ok (("Native Title Act (NSW)").data) := by decide
example : format_citation (fun s => s) (("Act (NSW) something else").data)
    (("primary_legislation").data) (("new_south_wales").data)
    = .ok (("Act (NSW)").data) := by decide
example : format_citation (fun s => s) (("Act  with   spaces No  7").data)
    (("secondary_legislation").data) (("victoria").data)
    = .ok (("Act with spaces (Vic)").data) := by decide
example : format_citation (fun s => s) (("Some Decision  [2020] No 3").data)
    (("decision").data) (("new_south_wales").data)
    = .ok (("Some Decision [2020] No 3").data) := by decide
example : format_citation (fun s => s) (("T").data)
    (("primary_legislation").data) (("norfolk_island").data)
    = .ok (("T (NI)").data) := by decide
example : format_citation (fun s => s) (("A No 4 5").data)
    (("primary_legislation").data) (("queensland").data)
    = .ok (("A No 4 5 (Qld)").data) := by decide
example : format_citation (fun s => s) (("  padded  ").data)
    (("decision").data) (("whatever").data)
    = .ok (("padded").data) := by decide
example : format_citation (fun s => s) (("(Cth) leading").data)
    (("primary_legislation").data) (("commonwealth").data)
    = .ok (("(Cth)").data) := by decide
example : format_citation (fun s => s) (("Act No\t 12").data)
    (("primary_legislation").data) (("tasmania").data)
    = .ok (("Act (Tas)").data) := by decide
example : format_citation (fun s => s) (("Act(NSW)x").data)
    (("primary_legislation").data) (("new_south_wales").data)
    = .ok (("Act (NSW)").data) := by decide
example : format_citation (fun s => s) (([] : PyStr))
    (("primary_legislation").data) (("western_australia").data)
    = .ok (("(WA)").data) := by decide
example : format_citation (fun s => s) (("No 45").data)
    (("primary_legislation").data) (("south_australia").data)
    = .ok (("No 45 (SA)").data) := by decide
example : (format_citation (fun s => s) (("x").data)
    (("primary_legislation").data) (("mars").data)).toOption = none := by decide
example : (make_doc (fun s => s) (("now").data) (("v").data) (("decision").data)
    (("j").data) (("s").data) (("m").data) (("d").data) (("cit").data) (("u").data)
    (("12 34").data)) = .ok none := by decide
example : subBlankLines (("a\n\nb").data) = ("a\n\n\nb").data := by decide
example : subBlankLines (("a\n  \nb").data) = ("a\n\n\nb").data := by decide
example : subBlankLines (("a\n\n\nb").data) = ("a\n\n\n\nb").data := by decide
example : subBlankLines (("  \n \n x").data) = ("  \n\n\n x").data := by decide
example : subBlankLines (("x \n \n  ").data) = ("x \n\n\n  ").data := by decide
example : subBlankLines (("\n\n").data) = ("\n\n\n").data := by decide
example : subBlankLines (("a\n \t\nb\n\n\nc").data) = ("a\n\n\nb\n\n\n\nc").data := by decide
example : subBlankLines (("a\n\r \nb").data) = ("a\n\n\nb").data := by decide
example : subBlankLines (("a\n\n \n\nb").data) = ("a\n\n\n\nb").data := by decide
example : subBlankLines (("a\n\x1C\nb").data) = ("a\n\n\nb").data := by decide
example : subBlankLines (("x\n\n\n\n\ny").data) = ("x\n\n\n\ny").data := by decide
example : subBlankLines (("ab\n\t\nc d").data) = ("ab\n\n\nc d").data := by decide
example : stripLeadingBlank (("  \n\n\n x").data) = (" x").data := by decide
example : stripLeadingBlank (("\t\n\n\nq").data) = ("q").data := by decide
example : stripLeadingBlank (("\n a").data) = (" a").data := by decide
example : stripLeadingBlank ((" \n").data) = ([] : PyStr) := by decide
example : stripTrailingBlank (("x \n\n\n  ").data) = ("x ").data := by decide
example : stripTrailingBlank (("a\nb\n").data) = ("a\nb").data := by decide
example : stripTrailingBlank (("a\n").data) = ("a").data := by decide
example : stripEolSpaces (("a \nb ").data) = ("a\nb ").data := by decide
example : stripEolSpaces (("a  \t b").data) = ("a  \t b").data := by decide
example : clean_text (("a\n\nb").data) = ("a\n\n\nb").data := by decide
example : clean_text (("a\r\nb").data) = ("a\r\nb").data := by decide
example : clean_text (("a\\r\\nb").data) = ("a\nb").data := by decide
example : clean_text (("12 34").data) = ("12 34").data := by decide
example : clean_text ((" a  b ").data) = (" a  b ").data := by decide
example : clean_text (("a\n \t\nb\n\n\nc").data) = ("a\n\n\nb\n\n\n\nc").data := by decide
example : clean_text (("hello").data) = ("hello").data := by decide
example : clean_text (("\n\n").data) = ([] : PyStr) := by decide
example : clean_text (("x \n \n  ").data) = ("x ").data := by decide
example : clean_text (("  \n \n x").data) = (" x").data := by decide

end OALC
